import Mathlib

/-!
Verification of the streaming aggregation engine of a TypeScript model SDK.

The repository sources available are the test suites
(`src/models/__tests__/model.test.ts`, with an earlier variant), the
message/content type declarations (`types/messages.ts`), and test fixtures.
The aggregation engine itself (`Model.streamAggregated`), the canonical
stream-event declarations (`models/streaming.ts`) and the Bedrock adapter
(`models/bedrock.ts`) are not among the sources, so they are modelled from
the specification, adjusted where the repository's tests pin the observable
behavior (see the doc comments on the individual definitions).
-/

namespace StreamSpec

/-- Structured data values produced by parsing a tool-use input payload.
Mirrors the `JSONValue` type referenced by `ToolUseBlock.input` in
`types/messages.ts`.  Numbers are modelled as integers (no claim in scope
exercises fractional numbers). -/
inductive JSONValue where
  | null : JSONValue
  | bool (b : Bool) : JSONValue
  | num (n : Int) : JSONValue
  | str (s : String) : JSONValue
  | arr (elems : List JSONValue) : JSONValue
  | obj (members : List (String × JSONValue)) : JSONValue

/-- Token usage accounting carried by a Metadata event
(`usage: { inputTokens, outputTokens, totalTokens }`). -/
structure Usage where
  inputTokens : Nat
  outputTokens : Nat
  totalTokens : Nat
deriving DecidableEq, Repr

/-- Start descriptor of a tool-use content block
(`start: { type: 'toolUseStart', toolUseId, name }`). -/
structure ToolUseStart where
  toolUseId : String
  name : String
deriving DecidableEq, Repr

/-- Canonical delta union: `textDelta`, `toolUseInputDelta`,
`reasoningContentDelta` (optional text, optional signature, optional
redacted content), as exercised by the test fixtures. -/
inductive ContentBlockDelta where
  | textDelta (text : String) : ContentBlockDelta
  | toolUseInputDelta (input : String) : ContentBlockDelta
  | reasoningContentDelta (text : Option String) (signature : Option String)
      (redactedContent : Option (List Nat)) : ContentBlockDelta
deriving DecidableEq, Repr

/-- Canonical stream event union (`ModelStreamEvent` of `models/streaming.ts`),
with the shapes used by the test suites. -/
inductive ModelStreamEvent where
  | modelMessageStartEvent (role : String) : ModelStreamEvent
  | modelContentBlockStartEvent (contentBlockIndex : Nat)
      (start : Option ToolUseStart) : ModelStreamEvent
  | modelContentBlockDeltaEvent (contentBlockIndex : Nat)
      (delta : ContentBlockDelta) : ModelStreamEvent
  | modelContentBlockStopEvent (contentBlockIndex : Nat) : ModelStreamEvent
  | modelMessageStopEvent (stopReason : String) : ModelStreamEvent
  | modelMetadataEvent (usage : Usage) : ModelStreamEvent
deriving DecidableEq, Repr

/-- Finalized content block variants produced by aggregation
(`TextBlock`, `ToolUseBlock`, `ReasoningBlock` of `types/messages.ts`;
optional fields that were never populated are `none`). -/
inductive ContentBlock where
  | textBlock (text : String) : ContentBlock
  | toolUseBlock (toolUseId : String) (name : String) (input : JSONValue) : ContentBlock
  | reasoningBlock (text : Option String) (signature : Option String)
      (redactedContent : Option (List Nat)) : ContentBlock

/-- The terminal aggregate value: role, finalized content blocks in completion
order, and the optional stopReason and usage (spec section 3; `stopReason` and
`usage` are asserted on the returned message by `model.test.ts`). -/
structure Message where
  role : Option String
  content : List ContentBlock
  stopReason : Option String
  usage : Option Usage

/-! ## Structured-data (JSON) parsing

Modelled from the spec: the engine "parses the concatenated raw buffer as
structured data" at finalization (spec section 4.2); the implementation
(`JSON.parse` in the missing engine source) is modelled as a recursive
descent parser.  Numbers are modelled as integers. -/

/-- Whitespace recognised between JSON tokens. -/
def isWsChar (c : Char) : Bool :=
  c = ' ' || c = '\t' || c = '\n' || c = '\r'

/-- Skip leading whitespace. -/
def skipWs : List Char → List Char
  | [] => []
  | c :: rest => if isWsChar c then skipWs rest else c :: rest

/-- Value of a hexadecimal digit, if any. -/
def hexVal? (c : Char) : Option Nat :=
  if '0' ≤ c ∧ c ≤ '9' then some (c.toNat - 48)
  else if 'a' ≤ c ∧ c ≤ 'f' then some (c.toNat - 87)
  else if 'A' ≤ c ∧ c ≤ 'F' then some (c.toNat - 55)
  else none

/-- Character denoted by a single-character escape sequence, if any. -/
def escChar? (e : Char) : Option Char :=
  if e = 'n' then some '\n'
  else if e = 't' then some '\t'
  else if e = 'r' then some '\r'
  else if e = 'b' then some (Char.ofNat 8)
  else if e = 'f' then some (Char.ofNat 12)
  else if e = '"' ∨ e = '\\' ∨ e = '/' then some e
  else none

/-- Parse the body of a string literal after the opening quote; returns the
decoded characters and the remaining input past the closing quote. -/
def parseStringBody : List Char → Option (List Char × List Char)
  | [] => none
  | '"' :: rest => some ([], rest)
  | '\\' :: 'u' :: a :: b :: c :: d :: rest =>
    match hexVal? a, hexVal? b, hexVal? c, hexVal? d with
    | some ha, some hb, some hc, some hd =>
      (parseStringBody rest).map
        (fun p => (Char.ofNat (((ha * 16 + hb) * 16 + hc) * 16 + hd) :: p.1, p.2))
    | _, _, _, _ => none
  | '\\' :: e :: rest =>
    match escChar? e with
    | some c => (parseStringBody rest).map (fun p => (c :: p.1, p.2))
    | none => none
  | c :: rest =>
    if c = '\\' then none
    else (parseStringBody rest).map (fun p => (c :: p.1, p.2))

/-- Longest digit run at the head of the input. -/
def spanDigits : List Char → List Char × List Char
  | [] => ([], [])
  | c :: rest =>
    if c.isDigit then
      match spanDigits rest with
      | (ds, rem) => (c :: ds, rem)
    else ([], c :: rest)

/-- Numeric value of a digit run. -/
def digitsToNat : Nat → List Char → Nat
  | acc, [] => acc
  | acc, c :: rest => digitsToNat (acc * 10 + (c.toNat - 48)) rest

/-- True when the input continues with a fractional or exponent part (which
the integer-only number model rejects). -/
def numberContinues : List Char → Bool
  | [] => false
  | c :: _ => c = '.' || c = 'e' || c = 'E'

/-- Strip a literal keyword from the head of the input, if present. -/
def stripKeyword : List Char → List Char → Option (List Char)
  | [], cs => some cs
  | _ :: _, [] => none
  | k :: ks, c :: cs => if c = k then stripKeyword ks cs else none

/-- Parse an (integer) JSON number. -/
def parseNumber : List Char → Option (Int × List Char)
  | '-' :: rest =>
    match spanDigits rest with
    | ([], _) => none
    | (ds, rem) =>
      if numberContinues rem then none
      else some (-(Int.ofNat (digitsToNat 0 ds)), rem)
  | cs =>
    match spanDigits cs with
    | ([], _) => none
    | (ds, rem) =>
      if numberContinues rem then none
      else some (Int.ofNat (digitsToNat 0 ds), rem)

mutual

/-- Parse one JSON value; `fuel` bounds the recursion. -/
def parseValue : Nat → List Char → Except String (JSONValue × List Char)
  | 0, _ => .error ("out of fuel")
  | Nat.succ fuel, cs =>
    match skipWs cs with
    | [] => .error ("unexpected end of input")
    | 'n' :: rest =>
      match stripKeyword ['u', 'l', 'l'] rest with
      | some rest2 => .ok (.null, rest2)
      | none => .error ("unexpected token")
    | 't' :: rest =>
      match stripKeyword ['r', 'u', 'e'] rest with
      | some rest2 => .ok (.bool true, rest2)
      | none => .error ("unexpected token")
    | 'f' :: rest =>
      match stripKeyword ['a', 'l', 's', 'e'] rest with
      | some rest2 => .ok (.bool false, rest2)
      | none => .error ("unexpected token")
    | '"' :: rest =>
      match parseStringBody rest with
      | some p => .ok (.str (String.mk p.1), p.2)
      | none => .error ("malformed string literal")
    | '[' :: rest =>
      match skipWs rest with
      | ']' :: rest2 => .ok (.arr [], rest2)
      | other => parseElems fuel other []
    | '\x7b' :: rest =>
      match skipWs rest with
      | '\x7d' :: rest2 => .ok (.obj [], rest2)
      | other => parseMembers fuel other []
    | other =>
      match parseNumber other with
      | some p => .ok (.num p.1, p.2)
      | none => .error ("unexpected token")

/-- Parse the remaining elements of a non-empty array. -/
def parseElems : Nat → List Char → List JSONValue →
    Except String (JSONValue × List Char)
  | 0, _, _ => .error ("out of fuel")
  | Nat.succ fuel, cs, acc =>
    match parseValue fuel cs with
    | .error e => .error e
    | .ok (v, rest) =>
      match skipWs rest with
      | ',' :: rest2 => parseElems fuel rest2 (acc ++ [v])
      | ']' :: rest2 => .ok (.arr (acc ++ [v]), rest2)
      | _ => .error ("expected separator or end of array")

/-- Parse the remaining members of a non-empty object. -/
def parseMembers : Nat → List Char → List (String × JSONValue) →
    Except String (JSONValue × List Char)
  | 0, _, _ => .error ("out of fuel")
  | Nat.succ fuel, cs, acc =>
    match skipWs cs with
    | '"' :: rest =>
      match parseStringBody rest with
      | none => .error ("malformed member key")
      | some (key, rest2) =>
        match skipWs rest2 with
        | ':' :: rest3 =>
          match parseValue fuel rest3 with
          | .error e => .error e
          | .ok (v, rest4) =>
            match skipWs rest4 with
            | ',' :: rest5 => parseMembers fuel rest5 (acc ++ [(String.mk key, v)])
            | '\x7d' :: rest5 => .ok (.obj (acc ++ [(String.mk key, v)]), rest5)
            | _ => .error ("expected separator or end of object")
        | _ => .error ("expected colon")
    | _ => .error ("expected member key")

end

/-- Parse a complete JSON document: one value with only trailing whitespace. -/
def parseJson (s : String) : Except String JSONValue :=
  match parseValue (2 * s.length + 4) s.data with
  | .error e => .error e
  | .ok (v, rest) =>
    match skipWs rest with
    | [] => .ok v
    | _ => .error ("trailing characters")

/-! ## Block Accumulator

Modelled from the spec (section 4.2): per-block-index state merging
incremental deltas into one finished content unit.  `open` with a tool-use
start descriptor commits the discriminant to tool-use; otherwise the
discriminant is inferred lazily from the first delta received. -/

/-- Errors of the aggregation core (spec section 7): protocol violations and
malformed structured payloads are hard errors of the invocation. -/
inductive AggError where
  | unknownBlockIndex (i : Nat) : AggError
  | unterminatedBlock : AggError
  | invalidToolInput (raw : String) : AggError
  | deltaTypeMismatch : AggError
deriving DecidableEq, Repr

/-- Partial state of one content block.  `unset` is a block opened without a
start descriptor whose discriminant is not yet committed. -/
inductive BlockAcc where
  | unset : BlockAcc
  | text (buffer : String) : BlockAcc
  | toolUse (toolUseId : String) (name : String) (buffer : String) : BlockAcc
  | reasoningText (buffer : String) (signature : Option String) : BlockAcc
  | reasoningRedacted (bytes : List Nat) : BlockAcc
deriving DecidableEq, Repr

/-- `open(startDescriptor?)`: a tool-use start descriptor commits the block to
tool-use with an empty raw buffer; otherwise the block starts uncommitted. -/
def BlockAcc.openAcc : Option ToolUseStart → BlockAcc
  | none => .unset
  | some st => .toolUse st.toolUseId st.name ("")

/-- `apply(delta)` (spec section 4.2): text fragments append to an append-only
buffer; tool-use input fragments append to the raw buffer without parsing;
a reasoning delta carrying a redacted-content fragment commits the block to
the redacted-content shape, otherwise its text appends and a present
signature overwrites the retained one (last non-absent signature wins).
A delta for a block committed to a different discriminant is a hard error. -/
def BlockAcc.apply : BlockAcc → ContentBlockDelta → Except AggError BlockAcc
  | .unset, .textDelta t => .ok (.text t)
  | .text b, .textDelta t => .ok (.text (b ++ t))
  | .toolUse tid n b, .toolUseInputDelta i => .ok (.toolUse tid n (b ++ i))
  | .unset, .reasoningContentDelta t s r =>
    match r with
    | some bytes => .ok (.reasoningRedacted bytes)
    | none => .ok (.reasoningText (t.getD ("")) s)
  | .reasoningText b sig, .reasoningContentDelta t s r =>
    match r with
    | some bytes => .ok (.reasoningRedacted bytes)
    | none =>
      .ok (.reasoningText (b ++ t.getD (""))
        (match s with
         | some x => some x
         | none => sig))
  | .reasoningRedacted bs, .reasoningContentDelta _ _ r =>
    match r with
    | some bytes => .ok (.reasoningRedacted (bs ++ bytes))
    | none => .ok (.reasoningRedacted bs)
  | _, _ => .error .deltaTypeMismatch

/-- `finalize()` (spec section 4.2): text blocks emit their buffer; tool-use
blocks parse the concatenated raw buffer as structured data, a parse failure
being a hard error; reasoning blocks emit whichever of the text+signature or
redacted-content shapes was committed, omitting never-populated fields.
A block closed with no deltas finalizes as an empty text block (a case pinned
by neither the spec nor the tests). -/
def BlockAcc.finalize : BlockAcc → Except AggError ContentBlock
  | .unset => .ok (.textBlock (""))
  | .text b => .ok (.textBlock b)
  | .toolUse tid n b =>
    match parseJson b with
    | .ok v => .ok (.toolUseBlock tid n v)
    | .error _ => .error (.invalidToolInput b)
  | .reasoningText b sig => .ok (.reasoningBlock (some b) sig none)
  | .reasoningRedacted bs => .ok (.reasoningBlock none none (some bs))

/-! ## Aggregation State Machine -/

/-- Registry lookup by blockIndex. -/
def lookupBlock : List (Nat × BlockAcc) → Nat → Option BlockAcc
  | [], _ => none
  | (j, acc) :: rest, i => if j = i then some acc else lookupBlock rest i

/-- Register or replace the accumulator for a blockIndex. -/
def setBlock : List (Nat × BlockAcc) → Nat → BlockAcc → List (Nat × BlockAcc)
  | [], i, acc => [(i, acc)]
  | (j, a) :: rest, i, acc =>
    if j = i then (i, acc) :: rest else (j, a) :: setBlock rest i acc

/-- Remove the accumulator for a blockIndex from the registry. -/
def removeBlock : List (Nat × BlockAcc) → Nat → List (Nat × BlockAcc)
  | [], _ => []
  | (j, a) :: rest, i =>
    if j = i then rest else (j, a) :: removeBlock rest i

/-- Mutable state of one aggregation invocation: recorded role, content blocks
in completion order, recorded usage, and the open Block Accumulator registry
keyed by blockIndex. -/
structure AggState where
  role : Option String
  content : List ContentBlock
  usage : Option Usage
  blocks : List (Nat × BlockAcc)

/-- The state at the start of an invocation. -/
def initState : AggState := ⟨none, [], none, []⟩

/-- One element of the live output channel: a forwarded canonical event or a
synthesized finalized content block. -/
inductive StreamItem where
  | event (e : ModelStreamEvent) : StreamItem
  | block (b : ContentBlock) : StreamItem

/-- Prepend a forwarded event to a run result. -/
def consEvent (e : ModelStreamEvent)
    (p : List StreamItem × Except AggError Message) :
    List StreamItem × Except AggError Message :=
  (.event e :: p.1, p.2)

/-- Prepend a forwarded stop event and the synthesized block it completed. -/
def consStop (e : ModelStreamEvent) (b : ContentBlock)
    (p : List StreamItem × Except AggError Message) :
    List StreamItem × Except AggError Message :=
  (.event e :: .block b :: p.1, p.2)

/-- Modelled from the spec: the aggregation state machine
(`Model.streamAggregated`, absent from the sources; spec section 4.3),
driving the canonical event sequence while forwarding each consumed event,
synthesizing the finalized block right after each ContentBlockStop, and
assembling the terminal Message.  Deltas and stops for an unregistered
blockIndex, and termination with open accumulators, are hard errors.
One departure from the spec text is pinned by the repository's tests:
aggregation returns at MessageStop without consuming later events
(`model.test.ts` expects five forwarded events, not six, and a terminal
message without `usage`, for a stream whose Metadata event follows
MessageStop). -/
def runAgg : AggState → List ModelStreamEvent →
    List StreamItem × Except AggError Message
  | s, [] =>
    if s.blocks = [] then ([], .ok ⟨s.role, s.content, none, s.usage⟩)
    else ([], .error .unterminatedBlock)
  | s, .modelMessageStartEvent role :: rest =>
    consEvent (.modelMessageStartEvent role)
      (runAgg ⟨some role, s.content, s.usage, s.blocks⟩ rest)
  | s, .modelContentBlockStartEvent i st :: rest =>
    consEvent (.modelContentBlockStartEvent i st)
      (runAgg ⟨s.role, s.content, s.usage, setBlock s.blocks i (BlockAcc.openAcc st)⟩ rest)
  | s, .modelContentBlockDeltaEvent i d :: rest =>
    match lookupBlock s.blocks i with
    | none => ([], .error (.unknownBlockIndex i))
    | some acc =>
      match acc.apply d with
      | .error e => ([], .error e)
      | .ok acc2 =>
        consEvent (.modelContentBlockDeltaEvent i d)
          (runAgg ⟨s.role, s.content, s.usage, setBlock s.blocks i acc2⟩ rest)
  | s, .modelContentBlockStopEvent i :: rest =>
    match lookupBlock s.blocks i with
    | none => ([], .error (.unknownBlockIndex i))
    | some acc =>
      match acc.finalize with
      | .error e => ([], .error e)
      | .ok blk =>
        consStop (.modelContentBlockStopEvent i) blk
          (runAgg ⟨s.role, s.content ++ [blk], s.usage, removeBlock s.blocks i⟩ rest)
  | s, .modelMessageStopEvent reason :: _ =>
    if s.blocks = [] then
      ([.event (.modelMessageStopEvent reason)],
        .ok ⟨s.role, s.content, some reason, s.usage⟩)
    else ([.event (.modelMessageStopEvent reason)], .error .unterminatedBlock)
  | s, .modelMetadataEvent u :: rest =>
    consEvent (.modelMetadataEvent u)
      (runAgg ⟨s.role, s.content, some u, s.blocks⟩ rest)

/-- Run one aggregation invocation from the initial state: the live channel
items and the terminal result. -/
def streamAggregated (events : List ModelStreamEvent) :
    List StreamItem × Except AggError Message :=
  runAgg initState events

/-! ## Helpers for stating the claims -/

/-- Exact concatenation of fragments in arrival order, no separators. -/
def concatAll : List String → String
  | [] => ""
  | s :: rest => s ++ concatAll rest

/-- Apply a sequence of deltas to one Block Accumulator, stopping at the
first hard error (as the state machine does when routing deltas). -/
def applyDeltas : List ContentBlockDelta → BlockAcc → Except AggError BlockAcc
  | [], acc => .ok acc
  | d :: ds, acc =>
    match acc.apply d with
    | .error e => .error e
    | .ok acc2 => applyDeltas ds acc2

/-- Apply a sequence of deltas to one Block Accumulator and finalize it. -/
def finalizeDeltas (ds : List ContentBlockDelta) (acc : BlockAcc) :
    Except AggError ContentBlock :=
  match applyDeltas ds acc with
  | .error e => .error e
  | .ok a => a.finalize

/-- The synthesized content block carried by a live item, if it is one. -/
def synthBlock? : StreamItem → Option ContentBlock
  | .block b => some b
  | .event _ => none

/-- Whether a live item is a forwarded ContentBlockStop event. -/
def isStopItem : StreamItem → Bool
  | .event (.modelContentBlockStopEvent _) => true
  | _ => false

/-! ## Bedrock normalization adapter (stop reasons) -/

/-- Native delta shapes of the Bedrock ConverseStream wire events, as mocked
in `model.test.ts` (`{ text }`, `{ toolUse: { input } }`,
`{ reasoningContent: { text, signature, redactedContent } }`). -/
inductive BedrockDelta where
  | text (t : String) : BedrockDelta
  | toolUse (input : String) : BedrockDelta
  | reasoningContent (text : Option String) (signature : Option String)
      (redactedContent : Option (List Nat)) : BedrockDelta
deriving DecidableEq, Repr

/-- Native Bedrock ConverseStream events, as mocked in `model.test.ts`
(`messageStart`, `contentBlockStart`, `contentBlockDelta`,
`contentBlockStop`, `messageStop`, `metadata`). -/
inductive BedrockStreamEvent where
  | messageStart (role : String) : BedrockStreamEvent
  | contentBlockStart (contentBlockIndex : Nat)
      (start : Option ToolUseStart) : BedrockStreamEvent
  | contentBlockDelta (contentBlockIndex : Nat)
      (delta : BedrockDelta) : BedrockStreamEvent
  | contentBlockStop (contentBlockIndex : Nat) : BedrockStreamEvent
  | messageStop (stopReason : String) : BedrockStreamEvent
  | metadata (usage : Usage) : BedrockStreamEvent
deriving DecidableEq, Repr

/-- Rewrite a snake_case identifier to camelCase: underscores are dropped and
the letter after each underscore is upper-cased. -/
def snakeToCamelChars : Bool → List Char → List Char
  | _, [] => []
  | up, c :: rest =>
    if c = '_' then snakeToCamelChars true rest
    else (if up then c.toUpper else c) :: snakeToCamelChars false rest

/-- Rewrite a snake_case string to camelCase. -/
def snakeToCamel (s : String) : String := String.mk (snakeToCamelChars false s.data)

/-- Modelled from the spec: the Bedrock normalization adapter
(`models/bedrock.ts`, absent from the sources; spec sections 4.1 and 9)
translating one native wire event to the canonical schema.  Its stop-reason
translation is pinned by `model.test.ts`: the backend's snake_case reasons
surface as camelCase on the aggregated message (`end_turn` to `endTurn`,
`max_tokens` to `maxTokens`, `tool_use` to `toolUse`). -/
def translateBedrockEvent : BedrockStreamEvent → ModelStreamEvent
  | .messageStart role => .modelMessageStartEvent role
  | .contentBlockStart i st => .modelContentBlockStartEvent i st
  | .contentBlockDelta i (.text t) =>
    .modelContentBlockDeltaEvent i (.textDelta t)
  | .contentBlockDelta i (.toolUse input) =>
    .modelContentBlockDeltaEvent i (.toolUseInputDelta input)
  | .contentBlockDelta i (.reasoningContent t sig rc) =>
    .modelContentBlockDeltaEvent i (.reasoningContentDelta t sig rc)
  | .contentBlockStop i => .modelContentBlockStopEvent i
  | .messageStop reason => .modelMessageStopEvent (snakeToCamel reason)
  | .metadata u => .modelMetadataEvent u

/-! ## Stop-reason vocabulary -/

/-- The stop reasons enumerated by the `StopReason` union of
`types/messages.ts`. -/
def enumeratedStopReasons : List String :=
  ["contentFiltered", "endTurn", "guardrailIntervened", "maxTokens",
   "stopSequence", "toolUse", "modelContextWindowExceeded"]

/-- Membership in the `StopReason` type of `types/messages.ts`: the union of
the enumerated literals with `string`, so any string is accepted. -/
def isStopReason (s : String) : Bool :=
  enumeratedStopReasons.contains s || true

/-- View a (text?, signature?, redactedContent?) triple as a reasoning delta. -/
def reasoningDelta (d : Option String × Option String × Option (List Nat)) :
    ContentBlockDelta :=
  .reasoningContentDelta d.1 d.2.1 d.2.2

/-! ## Concrete event sequences from the test suites -/

/-- The canonical event sequence of the usage-metadata test in
`model.test.ts`: the Metadata event arrives before MessageStop. -/
def seqMetaBeforeStop : List ModelStreamEvent :=
  [.modelMessageStartEvent ("assistant"),
   .modelContentBlockStartEvent 0 none,
   .modelContentBlockDeltaEvent 0 (.textDelta ("Test")),
   .modelContentBlockStopEvent 0,
   .modelMetadataEvent ⟨10, 5, 15⟩,
   .modelMessageStopEvent ("endTurn")]

/-- The same canonical events with the Metadata event after MessageStop, as in
the simple-text test of `model.test.ts`. -/
def seqMetaAfterStop : List ModelStreamEvent :=
  [.modelMessageStartEvent ("assistant"),
   .modelContentBlockStartEvent 0 none,
   .modelContentBlockDeltaEvent 0 (.textDelta ("Test")),
   .modelContentBlockStopEvent 0,
   .modelMessageStopEvent ("endTurn"),
   .modelMetadataEvent ⟨10, 5, 15⟩]

/-- The canonical event sequence of the end-to-end simple-text scenario. -/
def endToEndSeq : List ModelStreamEvent :=
  [.modelMessageStartEvent ("assistant"),
   .modelContentBlockStartEvent 0 none,
   .modelContentBlockDeltaEvent 0 (.textDelta ("Hello")),
   .modelContentBlockStopEvent 0,
   .modelMessageStopEvent ("endTurn"),
   .modelMetadataEvent ⟨10, 5, 15⟩]

/-- The Bedrock wire events of the stop-reason test in `model.test.ts`. -/
def bedrockStopSeq : List BedrockStreamEvent :=
  [.messageStart ("assistant"),
   .contentBlockStart 0 none,
   .contentBlockDelta 0 (.text ("Test")),
   .contentBlockStop 0,
   .messageStop ("max_tokens"),
   .metadata ⟨10, 5, 15⟩]

/-! ## Lemmas about delta application -/

theorem applyDeltas_text (ds : List String) :
    ∀ b : String, applyDeltas (ds.map ContentBlockDelta.textDelta) (.text b) =
      .ok (.text (b ++ concatAll ds)) := by
  induction ds with
  | nil => intro b; simp [applyDeltas, concatAll, String.append_empty]
  | cons d ds ih =>
    intro b
    simp only [List.map_cons, applyDeltas, BlockAcc.apply, concatAll]
    rw [← String.append_assoc]
    exact ih (b ++ d)

theorem applyDeltas_reasoningText (ds : List String) :
    ∀ (b : String) (sig : Option String),
      applyDeltas (ds.map (fun t => ContentBlockDelta.reasoningContentDelta
          (some t) none none)) (.reasoningText b sig) =
        .ok (.reasoningText (b ++ concatAll ds) sig) := by
  induction ds with
  | nil => intro b sig; simp [applyDeltas, concatAll, String.append_empty]
  | cons d ds ih =>
    intro b sig
    simp only [List.map_cons, applyDeltas, BlockAcc.apply, Option.getD_some, concatAll]
    rw [← String.append_assoc]
    exact ih (b ++ d) sig

theorem applyDeltas_toolUse (ds : List String) :
    ∀ (tid n b : String),
      applyDeltas (ds.map ContentBlockDelta.toolUseInputDelta) (.toolUse tid n b) =
        .ok (.toolUse tid n (b ++ concatAll ds)) := by
  induction ds with
  | nil => intro tid n b; simp [applyDeltas, concatAll, String.append_empty]
  | cons d ds ih =>
    intro tid n b
    simp only [List.map_cons, applyDeltas, BlockAcc.apply, concatAll]
    rw [← String.append_assoc]
    exact ih tid n (b ++ d)

theorem applyDeltas_redacted (ds : List (Option String × Option String × Option (List Nat))) :
    ∀ bs : List Nat, ∃ bs2,
      applyDeltas (ds.map reasoningDelta) (.reasoningRedacted bs) =
        .ok (.reasoningRedacted bs2) := by
  induction ds with
  | nil => intro bs; exact ⟨bs, rfl⟩
  | cons d ds ih =>
    intro bs
    obtain ⟨t, sg, rd⟩ := d
    cases rd with
    | none =>
      simpa [applyDeltas, reasoningDelta, BlockAcc.apply] using ih bs
    | some bytes =>
      simpa [applyDeltas, reasoningDelta, BlockAcc.apply] using ih (bs ++ bytes)

theorem applyDeltas_textish_redacted
    (ds : List (Option String × Option String × Option (List Nat))) :
    ∀ acc : BlockAcc,
      (acc = .unset ∨ ∃ b sig, acc = .reasoningText b sig) →
      (∃ d ∈ ds, d.2.2 ≠ none) →
      ∃ bs, applyDeltas (ds.map reasoningDelta) acc = .ok (.reasoningRedacted bs) := by
  induction ds with
  | nil =>
    intro acc _ hex
    simp at hex
  | cons d ds ih =>
    intro acc hacc hex
    obtain ⟨t, sg, rd⟩ := d
    cases rd with
    | some bytes =>
      rcases hacc with h | ⟨b, sig, h⟩ <;> subst h <;>
        simpa [applyDeltas, reasoningDelta, BlockAcc.apply] using
          applyDeltas_redacted ds bytes
    | none =>
      have hex2 : ∃ d ∈ ds, d.2.2 ≠ none := by
        rcases hex with ⟨x, hx, hne⟩
        rcases List.mem_cons.mp hx with h | h
        · subst h; simp at hne
        · exact ⟨x, h, hne⟩
      rcases hacc with h | ⟨b, sig, h⟩ <;> subst h
      · simpa [applyDeltas, reasoningDelta, BlockAcc.apply] using
          ih (.reasoningText (t.getD ("")) sg) (Or.inr ⟨_, _, rfl⟩) hex2
      · cases sg with
        | some x =>
          simpa [applyDeltas, reasoningDelta, BlockAcc.apply] using
            ih (.reasoningText (b ++ t.getD ("")) (some x)) (Or.inr ⟨_, _, rfl⟩) hex2
        | none =>
          simpa [applyDeltas, reasoningDelta, BlockAcc.apply] using
            ih (.reasoningText (b ++ t.getD ("")) sig) (Or.inr ⟨_, _, rfl⟩) hex2

/-! ## Claims about the Block Accumulator -/

/-- Claim C7: for every sequence of TextDelta fragments applied to one text
block, the finalized TextBlock's text equals the exact concatenation of the
fragments in arrival order, with no separators inserted; a reasoning block
concatenates its text fragments the same way. -/
theorem claim_C7_text_concatenation :
    (∀ frags : List String,
      finalizeDeltas (frags.map ContentBlockDelta.textDelta) .unset =
        .ok (.textBlock (concatAll frags)))
  ∧ (∀ (f : String) (rest : List String),
      finalizeDeltas ((f :: rest).map (fun t =>
          ContentBlockDelta.reasoningContentDelta (some t) none none)) .unset =
        .ok (.reasoningBlock (some (concatAll (f :: rest))) none none)) := by
  constructor
  · intro frags
    cases frags with
    | nil => rfl
    | cons f fs =>
      simp only [List.map_cons, finalizeDeltas, applyDeltas, BlockAcc.apply,
        applyDeltas_text fs f, BlockAcc.finalize, concatAll]
  · intro f rest
    simp only [List.map_cons, finalizeDeltas, applyDeltas, BlockAcc.apply,
      Option.getD_some, applyDeltas_reasoningText rest f none,
      BlockAcc.finalize, concatAll]

/-- Claim C6: each ReasoningContentDelta carrying a signature overwrites the
retained signature and deltas without a signature leave it unchanged; in
particular, applying text "A" with signature "s1" and then text "B" without
a signature finalizes to a reasoning block with signature "s1" and text
"AB". -/
theorem claim_C6_signature_retention :
    (∀ (b : String) (sig : Option String) (t : Option String) (s : String),
      BlockAcc.apply (.reasoningText b sig) (.reasoningContentDelta t (some s) none) =
        .ok (.reasoningText (b ++ t.getD ("")) (some s)))
  ∧ (∀ (b : String) (sig : Option String) (t : Option String),
      BlockAcc.apply (.reasoningText b sig) (.reasoningContentDelta t none none) =
        .ok (.reasoningText (b ++ t.getD ("")) sig))
  ∧ finalizeDeltas
      [.reasoningContentDelta (some ("A")) (some ("s1")) none,
       .reasoningContentDelta (some ("B")) none none] .unset =
      .ok (.reasoningBlock (some ("AB")) (some ("s1")) none) :=
  ⟨fun _ _ _ _ => rfl, fun _ _ _ => rfl, rfl⟩

/-- Claim C4: for every sequence of ToolUseInputDelta fragments applied to one
tool-use block, a valid concatenation finalizes to a ToolUseBlock carrying
the parsed value, and an invalid concatenation fails finalization with a
hard error; in particular the fragments of the tool-use test parse to the
Paris object and the unterminated fragment of the spec's example fails. -/
theorem claim_C4_tool_use_finalization :
    (∀ (frags : List String) (tid n : String),
      finalizeDeltas (frags.map ContentBlockDelta.toolUseInputDelta)
          (.toolUse tid n ("")) =
        match parseJson (concatAll frags) with
        | .ok v => .ok (.toolUseBlock tid n v)
        | .error _ => .error (.invalidToolInput (concatAll frags)))
  ∧ finalizeDeltas
      [.toolUseInputDelta ("\x7b\"location\""), .toolUseInputDelta (": \"Paris\"\x7d")]
      (.toolUse ("tool1") ("get_weather") ("")) =
      .ok (.toolUseBlock ("tool1") ("get_weather")
        (.obj [("location", .str ("Paris"))]))
  ∧ finalizeDeltas [.toolUseInputDelta ("\x7b\"a\":")]
      (.toolUse ("tool1") ("get_weather") ("")) =
      .error (.invalidToolInput ("\x7b\"a\":")) := by
  refine ⟨?_, rfl, rfl⟩
  intro frags tid n
  simp only [finalizeDeltas, applyDeltas_toolUse frags tid n (""),
    String.empty_append, BlockAcc.finalize]

/-- Claim C8: if any ReasoningContentDelta applied to a reasoning block
carries a redacted-content fragment, the finalized block is the
redacted-content shape, carrying no text and no signature. -/
theorem claim_C8_redacted_exclusivity :
    ∀ ds : List (Option String × Option String × Option (List Nat)),
      (∃ d ∈ ds, d.2.2 ≠ none) →
      ∃ bs, finalizeDeltas (ds.map reasoningDelta) .unset =
        .ok (.reasoningBlock none none (some bs)) := by
  intro ds hex
  obtain ⟨bs, h⟩ := applyDeltas_textish_redacted ds .unset (Or.inl rfl) hex
  exact ⟨bs, by simp [finalizeDeltas, h, BlockAcc.finalize]⟩

/-- Witness for claim C8: a concrete delta list carrying a redacted fragment
finalizes with no text field. -/
theorem claim_C8_redacted_exclusivity_witness :
    (∃ d ∈ ([(some ("A"), some ("s1"), none),
             (none, none, some [1, 2])] :
        List (Option String × Option String × Option (List Nat))), d.2.2 ≠ none)
  ∧ ∃ bs, finalizeDeltas
      (([(some ("A"), some ("s1"), none), (none, none, some [1, 2])] :
        List (Option String × Option String × Option (List Nat))).map reasoningDelta)
      .unset = .ok (.reasoningBlock none none (some bs)) :=
  ⟨by decide, claim_C8_redacted_exclusivity _ (by decide)⟩

/-! ## Claims about the Aggregation State Machine -/

/-- Claim C3: a ContentBlockDelta or ContentBlockStop whose blockIndex has no
registered Block Accumulator, and the canonical sequence ending while some
Block Accumulator is still open, abort the invocation with a hard error,
yielding no further live items and no terminal Message. -/
theorem claim_C3_protocol_violations :
    (∀ (s : AggState) (i : Nat) (d : ContentBlockDelta)
        (rest : List ModelStreamEvent),
      lookupBlock s.blocks i = none →
      runAgg s (.modelContentBlockDeltaEvent i d :: rest) =
        ([], .error (.unknownBlockIndex i)))
  ∧ (∀ (s : AggState) (i : Nat) (rest : List ModelStreamEvent),
      lookupBlock s.blocks i = none →
      runAgg s (.modelContentBlockStopEvent i :: rest) =
        ([], .error (.unknownBlockIndex i)))
  ∧ (∀ s : AggState, s.blocks ≠ [] →
      runAgg s [] = ([], .error .unterminatedBlock)) := by
  refine ⟨?_, ?_, ?_⟩
  · intro s i d rest h
    simp [runAgg, h]
  · intro s i rest h
    simp [runAgg, h]
  · intro s h
    simp [runAgg, h]

/-- Witness for claim C3: a delta for index 0 and a stop for index 1 with an
empty registry abort with the unknown-index error, and an empty sequence
with an open accumulator aborts with the unterminated-block error. -/
theorem claim_C3_protocol_violations_witness :
    (lookupBlock initState.blocks 0 = none
      ∧ runAgg initState [.modelContentBlockDeltaEvent 0 (.textDelta ("x"))] =
          ([], .error (.unknownBlockIndex 0)))
  ∧ (lookupBlock initState.blocks 1 = none
      ∧ runAgg initState [.modelContentBlockStopEvent 1] =
          ([], .error (.unknownBlockIndex 1)))
  ∧ ((⟨none, [], none, [(0, .unset)]⟩ : AggState).blocks ≠ []
      ∧ runAgg ⟨none, [], none, [(0, .unset)]⟩ [] =
          ([], .error .unterminatedBlock)) :=
  ⟨⟨rfl, claim_C3_protocol_violations.1 initState 0 (.textDelta ("x")) [] rfl⟩,
   ⟨rfl, claim_C3_protocol_violations.2.1 initState 1 [] rfl⟩,
   ⟨by simp, claim_C3_protocol_violations.2.2 ⟨none, [], none, [(0, .unset)]⟩ (by simp)⟩⟩

/-- Counterexample to claim C1 as stated: moving the Metadata event across
MessageStop changes the terminal Message — usage is populated only when the
Metadata event precedes MessageStop, because aggregation returns at
MessageStop without consuming later events (the behavior the repository's
tests assert). -/
theorem claim_C1_counterexample :
    (streamAggregated seqMetaBeforeStop).2 =
      .ok ⟨some ("assistant"), [.textBlock ("Test")], some ("endTurn"),
        some ⟨10, 5, 15⟩⟩
  ∧ (streamAggregated seqMetaAfterStop).2 =
      .ok ⟨some ("assistant"), [.textBlock ("Test")], some ("endTurn"), none⟩
  ∧ (streamAggregated seqMetaBeforeStop).2 ≠ (streamAggregated seqMetaAfterStop).2 := by
  refine ⟨rfl, rfl, ?_⟩
  intro h
  exact Option.noConfusion (congrArg Message.usage (Except.ok.inj h))

/-- Claim C1 as amended: stopReason is populated from MessageStop in either
order, and a Metadata event arriving before MessageStop populates usage; but
aggregation returns at MessageStop without consuming later events, so a
Metadata event after MessageStop is neither forwarded nor recorded, and the
two runs agree on role and content only. -/
theorem claim_C1_amended_metadata_order :
    ∀ (s : AggState) (u : Usage) (r : String), s.blocks = [] →
      runAgg s [.modelMetadataEvent u, .modelMessageStopEvent r] =
        ([.event (.modelMetadataEvent u), .event (.modelMessageStopEvent r)],
          .ok ⟨s.role, s.content, some r, some u⟩)
      ∧ runAgg s [.modelMessageStopEvent r, .modelMetadataEvent u] =
        ([.event (.modelMessageStopEvent r)],
          .ok ⟨s.role, s.content, some r, s.usage⟩) := by
  intro s u r h
  constructor
  · simp [runAgg, consEvent, h]
  · simp [runAgg, h]

/-- Witness for the amended claim C1, at a concrete state with no open
blocks. -/
theorem claim_C1_amended_metadata_order_witness :
    (⟨some ("assistant"), [.textBlock ("Hi")], none, []⟩ : AggState).blocks = []
  ∧ (runAgg ⟨some ("assistant"), [.textBlock ("Hi")], none, []⟩
        [.modelMetadataEvent ⟨1, 2, 3⟩, .modelMessageStopEvent ("endTurn")] =
      ([.event (.modelMetadataEvent ⟨1, 2, 3⟩),
        .event (.modelMessageStopEvent ("endTurn"))],
        .ok ⟨some ("assistant"), [.textBlock ("Hi")], some ("endTurn"),
          some ⟨1, 2, 3⟩⟩)
    ∧ runAgg ⟨some ("assistant"), [.textBlock ("Hi")], none, []⟩
        [.modelMessageStopEvent ("endTurn"), .modelMetadataEvent ⟨1, 2, 3⟩] =
      ([.event (.modelMessageStopEvent ("endTurn"))],
        .ok ⟨some ("assistant"), [.textBlock ("Hi")], some ("endTurn"), none⟩)) :=
  ⟨rfl, claim_C1_amended_metadata_order
    ⟨some ("assistant"), [.textBlock ("Hi")], none, []⟩ ⟨1, 2, 3⟩ ("endTurn") rfl⟩

/-- Counterexample to claim C2 as stated: on the end-to-end input the live
channel holds five forwarded events plus the synthesized TextBlock — the
trailing Metadata event is never consumed, exactly as the simple-text test
of `model.test.ts` asserts (five stream events, one content block) — and
the terminal Message carries no usage, so it differs from the Message the
claim describes. -/
theorem claim_C2_counterexample :
    streamAggregated endToEndSeq =
      ([.event (.modelMessageStartEvent ("assistant")),
        .event (.modelContentBlockStartEvent 0 none),
        .event (.modelContentBlockDeltaEvent 0 (.textDelta ("Hello"))),
        .event (.modelContentBlockStopEvent 0),
        .block (.textBlock ("Hello")),
        .event (.modelMessageStopEvent ("endTurn"))],
       .ok ⟨some ("assistant"), [.textBlock ("Hello")], some ("endTurn"), none⟩)
  ∧ (Message.mk (some ("assistant")) [.textBlock ("Hello")] (some ("endTurn")) none ≠
      Message.mk (some ("assistant")) [.textBlock ("Hello")] (some ("endTurn"))
        (some ⟨10, 5, 15⟩)) :=
  ⟨rfl, fun h => Option.noConfusion (congrArg Message.usage h)⟩

/-- Claim C2 as amended: the live channel yields the five forwarded events up
to and including MessageStop, plus one synthesized TextBlock with text
"Hello" immediately after the ContentBlockStop for index 0; the trailing
Metadata event is not consumed, and the terminal value is the assistant
Message with content [TextBlock "Hello"], stopReason "endTurn" and no
usage. -/
theorem claim_C2_amended_end_to_end :
    streamAggregated endToEndSeq =
      ([.event (.modelMessageStartEvent ("assistant")),
        .event (.modelContentBlockStartEvent 0 none),
        .event (.modelContentBlockDeltaEvent 0 (.textDelta ("Hello"))),
        .event (.modelContentBlockStopEvent 0),
        .block (.textBlock ("Hello")),
        .event (.modelMessageStopEvent ("endTurn"))],
       .ok ⟨some ("assistant"), [.textBlock ("Hello")], some ("endTurn"), none⟩) :=
  rfl

/-- Claim C9: the Bedrock adapter translates the backend's snake_case stop
reasons to the canonical camelCase values before they reach the aggregation
engine, so the terminal Message's stopReason is the camelCase form. -/
theorem claim_C9_bedrock_stop_reason_normalization :
    snakeToCamel ("end_turn") = "endTurn"
  ∧ snakeToCamel ("max_tokens") = "maxTokens"
  ∧ snakeToCamel ("tool_use") = "toolUse"
  ∧ translateBedrockEvent (.messageStop ("end_turn")) =
      .modelMessageStopEvent ("endTurn")
  ∧ (streamAggregated (bedrockStopSeq.map translateBedrockEvent)).2 =
      .ok ⟨some ("assistant"), [.textBlock ("Test")], some ("maxTokens"), none⟩ :=
  ⟨by decide, by decide, by decide, by decide, rfl⟩

/-- Invariant of a successful run: the content of the terminal Message is the
already-accumulated content of the starting state followed by exactly the
synthesized blocks of the live channel, in order, and the live channel holds
one synthesized block per forwarded ContentBlockStop event. -/
theorem runAgg_ok_content (evs : List ModelStreamEvent) :
    ∀ (s : AggState) (msg : Message),
      (runAgg s evs).2 = .ok msg →
      msg.content = s.content ++ (runAgg s evs).1.filterMap synthBlock? ∧
      ((runAgg s evs).1.filterMap synthBlock?).length =
        ((runAgg s evs).1.filter isStopItem).length := by
  induction evs with
  | nil =>
    intro s msg h
    by_cases hb : s.blocks = []
    · simp only [runAgg, hb, if_pos] at h ⊢
      simp only [Except.ok.injEq] at h
      subst h
      simp
    · simp [runAgg, hb] at h
  | cons e rest ih =>
    intro s msg h
    cases e with
    | modelMessageStartEvent role =>
      simp only [runAgg, consEvent] at h ⊢
      have := ih ⟨some role, s.content, s.usage, s.blocks⟩ msg h
      simpa [synthBlock?, isStopItem] using this
    | modelContentBlockStartEvent i st =>
      simp only [runAgg, consEvent] at h ⊢
      have := ih ⟨s.role, s.content, s.usage,
        setBlock s.blocks i (BlockAcc.openAcc st)⟩ msg h
      simpa [synthBlock?, isStopItem] using this
    | modelContentBlockDeltaEvent i d =>
      cases hl : lookupBlock s.blocks i with
      | none => simp [runAgg, hl] at h
      | some acc =>
        cases ha : BlockAcc.apply acc d with
        | error err => simp [runAgg, hl, ha] at h
        | ok acc2 =>
          simp only [runAgg, hl, ha, consEvent] at h ⊢
          have := ih ⟨s.role, s.content, s.usage, setBlock s.blocks i acc2⟩ msg h
          simpa [synthBlock?, isStopItem] using this
    | modelContentBlockStopEvent i =>
      cases hl : lookupBlock s.blocks i with
      | none => simp [runAgg, hl] at h
      | some acc =>
        cases hf : BlockAcc.finalize acc with
        | error err => simp [runAgg, hl, hf] at h
        | ok blk =>
          simp only [runAgg, hl, hf, consStop] at h ⊢
          have := ih ⟨s.role, s.content ++ [blk], s.usage,
            removeBlock s.blocks i⟩ msg h
          constructor
          · rw [this.1]
            simp [synthBlock?]
          · simpa [synthBlock?, isStopItem] using this.2
    | modelMessageStopEvent r =>
      by_cases hb : s.blocks = []
      · simp only [runAgg, hb, if_pos] at h ⊢
        simp only [Except.ok.injEq] at h
        subst h
        simp [synthBlock?, isStopItem]
      · simp [runAgg, hb] at h
    | modelMetadataEvent u =>
      simp only [runAgg, consEvent] at h ⊢
      have := ih ⟨s.role, s.content, some u, s.blocks⟩ msg h
      simpa [synthBlock?, isStopItem] using this

/-- Claim C5: whenever an invocation produces a terminal Message, its content
equals the synthesized blocks of the live channel in the order their
blockIndex completed, and its length equals the number of ContentBlockStop
events observed (forwarded) by the engine. -/
theorem claim_C5_block_count_and_order :
    ∀ (evs : List ModelStreamEvent) (msg : Message),
      (streamAggregated evs).2 = .ok msg →
      msg.content = (streamAggregated evs).1.filterMap synthBlock? ∧
      msg.content.length = ((streamAggregated evs).1.filter isStopItem).length := by
  intro evs msg h
  have hmain := runAgg_ok_content evs initState msg h
  have h1 : msg.content = (streamAggregated evs).1.filterMap synthBlock? := by
    simpa [streamAggregated, initState] using hmain.1
  refine ⟨h1, ?_⟩
  rw [h1]
  simpa [streamAggregated, initState] using hmain.2

/-- Witness for claim C5: the multiple-text-blocks sequence of the test suite
yields two synthesized blocks in completion order for its two observed
ContentBlockStop events. -/
theorem claim_C5_block_count_and_order_witness :
    (streamAggregated
        [.modelMessageStartEvent ("assistant"),
         .modelContentBlockStartEvent 0 none,
         .modelContentBlockDeltaEvent 0 (.textDelta ("First")),
         .modelContentBlockStopEvent 0,
         .modelContentBlockStartEvent 1 none,
         .modelContentBlockDeltaEvent 1 (.textDelta ("Second")),
         .modelContentBlockStopEvent 1,
         .modelMessageStopEvent ("endTurn")]).2 =
      .ok ⟨some ("assistant"), [.textBlock ("First"), .textBlock ("Second")],
        some ("endTurn"), none⟩
  ∧ ((Message.mk (some ("assistant"))
        [.textBlock ("First"), .textBlock ("Second")] (some ("endTurn")) none).content =
      (streamAggregated
        [.modelMessageStartEvent ("assistant"),
         .modelContentBlockStartEvent 0 none,
         .modelContentBlockDeltaEvent 0 (.textDelta ("First")),
         .modelContentBlockStopEvent 0,
         .modelContentBlockStartEvent 1 none,
         .modelContentBlockDeltaEvent 1 (.textDelta ("Second")),
         .modelContentBlockStopEvent 1,
         .modelMessageStopEvent ("endTurn")]).1.filterMap synthBlock?
    ∧ (Message.mk (some ("assistant"))
        [.textBlock ("First"), .textBlock ("Second")] (some ("endTurn")) none).content.length =
      ((streamAggregated
        [.modelMessageStartEvent ("assistant"),
         .modelContentBlockStartEvent 0 none,
         .modelContentBlockDeltaEvent 0 (.textDelta ("First")),
         .modelContentBlockStopEvent 0,
         .modelContentBlockStartEvent 1 none,
         .modelContentBlockDeltaEvent 1 (.textDelta ("Second")),
         .modelContentBlockStopEvent 1,
         .modelMessageStopEvent ("endTurn")]).1.filter isStopItem).length) :=
  ⟨rfl, claim_C5_block_count_and_order _ _ rfl⟩

/-- Claim C10: the StopReason type accepts any string, not only the
enumerated values, so a Message may carry a stopReason outside the
documented classification without being rejected. -/
theorem claim_C10_open_stop_reason_vocabulary :
    (∀ s : String, isStopReason s = true)
  ∧ enumeratedStopReasons.contains ("lengthExceeded") = false
  ∧ (streamAggregated
      [.modelMessageStartEvent ("assistant"),
       .modelMessageStopEvent ("lengthExceeded")]).2 =
      .ok ⟨some ("assistant"), [], some ("lengthExceeded"), none⟩ :=
  ⟨fun s => by simp [isStopReason], by decide, rfl⟩

end StreamSpec
